import Mathlib

/-
Verification of the KOTH file/database reconciliation plugins.

The repository holds four variants of one squadjs plugin:
  src/DBKoth.js            -- plain variant, modelled in namespace DBKoth
  src/unnamed/part_001     -- variant with per-entity parse guards and a
                              catch-up id filter, namespace P1
  src/unnamed/part_002     -- like part_001 plus a ServerSettings push,
                              namespace P2 (its event handlers)
  src/unnamed/part_000     -- OfficialKothDB: telemetry, sessions and a
                              gated ServerSettings push, namespace OK

Shared shallow embedding choices (namespace DBK):
  - A JSON document is Content: either ok v (text that JSON.parse accepts,
    with parsed payload v of an abstract payload type) or bad raw
    (text JSON.parse rejects).  JSON.stringify of a payload always yields
    well-formed text parsing back to the payload.
  - The KOTH_PlayerData table is a list of Rec in insertion order; findOne
    returns the first row whose player_id matches, upsert (conflict on
    player_id) replaces matching rows or appends.
  - The data directory is a list of DFile; writeFile replaces the file of
    that name (updating its mtime to the current time) or creates it.
  - Timestamps are naturals; the model is deterministic, I/O never fails,
    and only JSON.parse can throw.
-/

namespace DBK

/-- A JSON document: either text accepted by JSON.parse carrying payload v,
or malformed text. -/
inductive Content (α : Type) where
  | ok (v : α)
  | bad (raw : String)
deriving DecidableEq

/-- Embeds JSON.parse: malformed content throws, modelled as none. -/
def parse {α : Type} : Content α → Option α
  | Content.ok v => some v
  | Content.bad _ => none

/-- Embeds JSON.stringify: serializing a payload always produces well-formed
text that parses back to the payload. -/
def stringify {α : Type} (v : α) : Content α := Content.ok v

/-- A KOTH_PlayerData row: player_id (unique key), lastsave, serversave,
playerdata. -/
structure Rec (α : Type) where
  player_id : String
  lastsave : Nat
  serversave : Nat
  playerdata : α
deriving DecidableEq

/-- A file in the KOTH data directory: name, modification time, content. -/
structure DFile (α : Type) where
  name : String
  mtime : Nat
  content : Content α
deriving DecidableEq

/-- First element of the list whose key matches. -/
def lookupKey {β : Type} (key : β → String) (l : List β) (k : String) : Option β :=
  l.find? (fun x => key x == k)

/-- Replace every element whose key matches the new element, or append it. -/
def updOrAppend {β : Type} (key : β → String) (l : List β) (b : β) : List β :=
  if l.any (fun x => key x == key b) then l.map (fun x => if key x == key b then b else x)
  else l ++ [b]

/-- Embeds models.PlayerData.findOne by player_id. -/
def findOne {α : Type} (store : List (Rec α)) (id : String) : Option (Rec α) :=
  lookupKey Rec.player_id store id

/-- Embeds models.PlayerData.upsert with conflict field player_id. -/
def upsert {α : Type} (store : List (Rec α)) (r : Rec α) : List (Rec α) :=
  updOrAppend Rec.player_id store r

/-- Embeds reading a file by name from the data directory. -/
def readFs {α : Type} (fs : List (DFile α)) (n : String) : Option (DFile α) :=
  lookupKey DFile.name fs n

/-- Embeds writeFile: overwrite or create the file of that name; the
filesystem sets its mtime to the current time. -/
def writeFs {α : Type} (fs : List (DFile α)) (n : String) (c : Content α) (now : Nat) :
    List (DFile α) :=
  updOrAppend DFile.name fs (DFile.mk n now c)

/-- The extension .json as a character list. -/
def jsonExt : List Char := ".json".data

/-- Characters strictly before the first occurrence of sep, the whole list if
sep does not occur. -/
def splitBeforeFirst (sep : List Char) : List Char → List Char
  | [] => []
  | c :: rest => if sep.isPrefixOf (c :: rest) then [] else c :: splitBeforeFirst sep rest

/-- Embeds playerfile.split with separator .json, then taking element 0:
the substring before the first occurrence of .json. -/
def deriveId (n : String) : String := String.mk (splitBeforeFirst jsonExt n.data)

/-- Number of positions at which sep occurs in the list. -/
def occCount (sep : List Char) : List Char → Nat
  | [] => 0
  | c :: rest => (if sep.isPrefixOf (c :: rest) then 1 else 0) + occCount sep rest

/-- Embeds playerfile.endsWith of the string .json. -/
def endsJson (n : String) : Bool := jsonExt.isSuffixOf n.data

/-- Embeds the JavaScript toLowerCase call: lower every character.  (The
names compared here are ASCII.) -/
def toLowerStr (s : String) : String := String.mk (s.data.map Char.toLower)

/-- Embeds the case-insensitive comparison of a filename with
ServerSettings.json. -/
def isSettingsName (n : String) : Bool := toLowerStr n == "serversettings.json"

/-- The per-file filter of part_001 and part_002: a .json file that is not
the reserved settings file. -/
def isEntityFile (n : String) : Bool := endsJson n && !(isSettingsName n)

/-- Embeds the regular expression of seventeen digits anchored on both
sides, used by the part_001 and part_002 catch-up passes. -/
def isSteamId (id : String) : Bool := (id.data.length == 17) && id.data.all Char.isDigit

/-- State threaded through one sweep: the table, the directory and the
processedSteamIDs set (kept as a list in insertion order). -/
structure SState (α : Type) where
  store : List (Rec α)
  files : List (DFile α)
  processed : List String

/-- The store-to-file catch-up pattern shared by the sweeps: walk the rows
of findAll in order and, unless the row is skipped, write the file named
player_id followed by .json with the serialized payload. -/
def materialize {α : Type} (now : Nat) (skip : Rec α → Bool) (rs : List (Rec α))
    (fs : List (DFile α)) : List (DFile α) :=
  rs.foldl
    (fun acc r =>
      if skip r then acc
      else writeFs acc (r.player_id ++ ".json") (stringify r.playerdata) now)
    fs

end DBK

open DBK

namespace DBKoth

/-- One iteration of the per-file loop of syncKothFiles in src/DBKoth.js
(lines 88 to 116).  Files not ending in .json are skipped.  The entity id is
the part of the name before the first .json.  If no row exists or the file
mtime is strictly newer than the row lastsave, the file is read and parsed
(JSON.parse is unguarded there: a parse failure throws, modelled as none)
and upserted with lastsave set to now; otherwise the row payload is
serialized over the file. -/
def fileStep {α : Type} (now srv : Nat) (s : SState α) (f : DFile α) : Option (SState α) :=
  if endsJson f.name then
    let id := deriveId f.name
    match findOne s.store id with
    | none =>
        match parse f.content with
        | none => none
        | some v =>
            some (SState.mk (upsert s.store (Rec.mk id now srv v)) s.files (s.processed ++ [id]))
    | some r =>
        if r.lastsave < f.mtime then
          match parse f.content with
          | none => none
          | some v =>
              some (SState.mk (upsert s.store (Rec.mk id now srv v)) s.files (s.processed ++ [id]))
        else
          some (SState.mk s.store (writeFs s.files f.name (stringify r.playerdata) now)
            (s.processed ++ [id]))
  else some s

/-- The per-file loop of syncKothFiles in src/DBKoth.js.  The Boolean
records whether an exception escaped to the sweep-level catch, which stops
the loop and skips everything after it. -/
def loop {α : Type} (now srv : Nat) : List (DFile α) → SState α → SState α × Bool
  | [], s => (s, false)
  | f :: rest, s =>
    match fileStep now srv s f with
    | none => (s, true)
    | some s1 => loop now srv rest s1

/-- The store-to-file catch-up pass of src/DBKoth.js (lines 118 to 129):
every row whose player_id was not processed is materialized, with no
filtering of ids. -/
def catchUp {α : Type} (now : Nat) (s : SState α) : SState α :=
  SState.mk s.store
    (materialize now (fun r => s.processed.contains r.player_id) s.store s.files)
    s.processed

/-- syncKothFiles of src/DBKoth.js: the per-file loop, then, only when no
exception escaped to the sweep-level catch, the catch-up pass. -/
def syncKothFiles {α : Type} (now srv : Nat) (store : List (Rec α)) (files : List (DFile α)) :
    SState α :=
  match loop now srv files (SState.mk store files []) with
  | (s, true) => s
  | (s, false) => catchUp now s

/-- The ids the per-file loop of src/DBKoth.js marks as processed when it
runs to completion: the derived id of every .json directory entry. -/
def processedIds {α : Type} (files : List (DFile α)) : List String :=
  (files.filter (fun g => endsJson g.name)).map (fun g => deriveId g.name)

/-- onPlayerConnected of src/DBKoth.js (lines 187 to 202): look the player
up in the store; when absent return with the directory untouched, when
present overwrite the local file with the serialized row payload. -/
def onPlayerConnected {α : Type} (now : Nat) (sid : String) (store : List (Rec α))
    (fs : List (DFile α)) : List (DFile α) :=
  match findOne store sid with
  | none => fs
  | some r => writeFs fs (sid ++ ".json") (stringify r.playerdata) now

end DBKoth

namespace P1

/-- One iteration of the per-file loop of syncKothFiles in
src/unnamed/part_001 (lines 114 to 155).  Non .json files and the reserved
settings file are skipped.  The id is recorded as processed before the
freshness decision; a parse failure is caught and only skips this file. -/
def fileStep {α : Type} (now srv : Nat) (s : SState α) (f : DFile α) : SState α :=
  if isEntityFile f.name then
    let id := deriveId f.name
    match findOne s.store id with
    | none =>
        match parse f.content with
        | none => SState.mk s.store s.files (s.processed ++ [id])
        | some v =>
            SState.mk (upsert s.store (Rec.mk id now srv v)) s.files (s.processed ++ [id])
    | some r =>
        if r.lastsave < f.mtime then
          match parse f.content with
          | none => SState.mk s.store s.files (s.processed ++ [id])
          | some v =>
              SState.mk (upsert s.store (Rec.mk id now srv v)) s.files (s.processed ++ [id])
        else
          SState.mk s.store (writeFs s.files f.name (stringify r.playerdata) now)
            (s.processed ++ [id])
  else s

/-- The ids the per-file loop of part_001 marks as processed: the derived
id of every directory entry passing the entity-file filter. -/
def processedIds {α : Type} (files : List (DFile α)) : List String :=
  (files.filter (fun g => isEntityFile g.name)).map (fun g => deriveId g.name)

/-- The skip condition of the catch-up pass of part_001 (lines 157 to 174):
rows whose id fails the seventeen-digit check, equals serversettings after
lowering, or was processed in the per-file loop are not materialized. -/
def skipRec {α : Type} (processed : List String) (r : Rec α) : Bool :=
  !(isSteamId r.player_id) || toLowerStr r.player_id == "serversettings"
    || processed.contains r.player_id

/-- The store-to-file catch-up pass of src/unnamed/part_001. -/
def catchUp {α : Type} (now : Nat) (s : SState α) : SState α :=
  SState.mk s.store (materialize now (skipRec s.processed) s.store s.files) s.processed

/-- syncKothFiles of src/unnamed/part_001: per-file loop (never aborted by
a malformed file) followed by the filtered catch-up pass. -/
def syncKothFiles {α : Type} (now srv : Nat) (store : List (Rec α)) (files : List (DFile α)) :
    SState α :=
  catchUp now (files.foldl (fileStep now srv) (SState.mk store files []))

end P1

namespace P2

/-- onPlayerDisconnected of src/unnamed/part_002 (lines 263 to 293), the
same handler as in part_001: when the local file is absent return with the
store untouched; when it exists but JSON.parse rejects it, the handler logs
and returns; otherwise upsert the parsed payload with lastsave set to now,
with no freshness comparison against the existing row. -/
def onPlayerDisconnected {α : Type} (now srv : Nat) (sid : String) (store : List (Rec α))
    (fs : List (DFile α)) : List (Rec α) :=
  match readFs fs (sid ++ ".json") with
  | none => store
  | some f =>
      match parse f.content with
      | none => store
      | some v => upsert store (Rec.mk sid now srv v)

end P2

namespace OK

/-- A KOTH_PlayerStats row of src/unnamed/part_000. -/
structure StatsRec where
  player_id : String
  playtime_seconds : Int
  kills : Int
  deaths : Int
  captures : Int
  last_updated : Nat
deriving DecidableEq

/-- The stats sub-document read from a player file; absent fields are none,
matching the JavaScript fallback of the field or zero. -/
structure Delta where
  kills : Option Int
  deaths : Option Int
  captures : Option Int
deriving DecidableEq

/-- Embeds the JavaScript fallback: the field when present, else zero. -/
def orZero (o : Option Int) : Int := o.getD 0

/-- The counter merge of syncKothFiles in src/unnamed/part_000
(lines 214 to 221): each counter becomes the accumulated value plus the
file-reported delta, and last_updated becomes now.  playtime_seconds is not
touched by this update. -/
def mergeStats (st : StatsRec) (d : Delta) (now : Nat) : StatsRec :=
  StatsRec.mk st.player_id st.playtime_seconds (st.kills + orZero d.kills)
    (st.deaths + orZero d.deaths) (st.captures + orZero d.captures) now

/-- Field-wise sum of two deltas, each absent field counted as zero. -/
def addDelta (d1 d2 : Delta) : Delta :=
  Delta.mk (some (orZero d1.kills + orZero d2.kills))
    (some (orZero d1.deaths + orZero d2.deaths))
    (some (orZero d1.captures + orZero d2.captures))

/-- The possible states of PlayerList.json as distinguished by
readPlayerList of src/unnamed/part_000 (lines 114 to 142). -/
inductive PLFile where
  | missing
  | empty
  | malformed
  | noPlayersArray
  | players (ids : List String)
deriving DecidableEq

/-- readPlayerList of src/unnamed/part_000: the players array when the file
exists, is nonempty, parses and carries an array; every failure case yields
the empty list. -/
def readPlayerList : PLFile → List String
  | PLFile.players ids => ids
  | _ => []

/-- syncServerSettings of src/unnamed/part_000 (lines 144 to 160): when a
row with player_id ServerSettings exists, write its payload over
ServerSettings.json; otherwise do nothing. -/
def syncServerSettings {α : Type} (now : Nat) (store : List (Rec α)) (fs : List (DFile α)) :
    List (DFile α) :=
  match findOne store "ServerSettings" with
  | none => fs
  | some r => writeFs fs "ServerSettings.json" (stringify r.playerdata) now

/-- One iteration of the per-player loop of syncKothFiles in
src/unnamed/part_000 (lines 194 to 230): when the player file exists and
parses, upsert the payload unconditionally and, when a stats row exists,
apply the counter merge with the stats sub-document extracted from the
payload by statsOf; a parse failure is caught and skips this player. -/
def playerStep {α : Type} (statsOf : α → Delta) (now srv : Nat) (fs : List (DFile α))
    (acc : List (Rec α) × List StatsRec) (sid : String) : List (Rec α) × List StatsRec :=
  match readFs fs (sid ++ ".json") with
  | none => acc
  | some f =>
      match parse f.content with
      | none => acc
      | some v =>
          let store2 := upsert acc.1 (Rec.mk sid now srv v)
          let stats2 :=
            match acc.2.find? (fun st => st.player_id == sid) with
            | none => acc.2
            | some ds =>
                acc.2.map (fun st =>
                  if st.player_id == sid then mergeStats ds (statsOf v) now else st)
          (store2, stats2)

/-- syncKothFiles of src/unnamed/part_000 (lines 181 to 240): read the
allow list, push ServerSettings.json only when the connected count is at
least fifty and sync is enabled, then run the per-player loop over the
allow list; the sweep writes no other file. -/
def syncKothFiles {α : Type} (statsOf : α → Delta) (plf : PLFile) (enabled : Bool)
    (now srv : Nat) (store : List (Rec α)) (stats : List StatsRec) (fs : List (DFile α)) :
    List (Rec α) × List StatsRec × List (DFile α) :=
  let ids := readPlayerList plf
  let fs2 := if 50 ≤ ids.length ∧ enabled = true then syncServerSettings now store fs else fs
  let res := ids.foldl (playerStep statsOf now srv fs2) (store, stats)
  (res.1, res.2, fs2)

/-- onPlayerDisconnected of src/unnamed/part_000 (lines 333 to 376).  When
the local file exists but JSON.parse rejects it, the handler returns at
once, before the playtime block: the store, the stats and the session map
are all left as they were.  Otherwise the file, when present, is upserted;
then, when a session is open, the session duration in whole seconds is
added to playtime_seconds (when a stats row exists) and the session is
deleted. -/
def onPlayerDisconnected {α : Type} (now srv : Nat) (sid : String) (store : List (Rec α))
    (stats : List StatsRec) (sessions : List (String × Nat)) (fs : List (DFile α)) :
    List (Rec α) × List StatsRec × List (String × Nat) :=
  let fileRes : Option (List (Rec α)) :=
    match readFs fs (sid ++ ".json") with
    | none => some store
    | some f =>
        match parse f.content with
        | none => none
        | some v => some (upsert store (Rec.mk sid now srv v))
  match fileRes with
  | none => (store, stats, sessions)
  | some store2 =>
      match sessions.find? (fun p => p.1 == sid) with
      | none => (store2, stats, sessions)
      | some p =>
          let dur : Int := ((now : Int) - (p.2 : Int)).fdiv 1000
          let stats2 :=
            match stats.find? (fun st => st.player_id == sid) with
            | none => stats
            | some ps =>
                stats.map (fun st =>
                  if st.player_id == sid then
                    StatsRec.mk st.player_id (ps.playtime_seconds + dur) st.kills st.deaths
                      st.captures now
                  else st)
          (store2, stats2, sessions.filter (fun q => !(q.1 == sid)))

/-- The kills increment of onPlayerKilled: an atomic field increment on
every stats row matching the id (a no-op when no row matches). -/
def incKills (stats : List StatsRec) (sid : String) : List StatsRec :=
  stats.map (fun st =>
    if st.player_id == sid then
      StatsRec.mk st.player_id st.playtime_seconds (st.kills + 1) st.deaths st.captures
        st.last_updated
    else st)

/-- The deaths increment of onPlayerKilled. -/
def incDeaths (stats : List StatsRec) (sid : String) : List StatsRec :=
  stats.map (fun st =>
    if st.player_id == sid then
      StatsRec.mk st.player_id st.playtime_seconds st.kills (st.deaths + 1) st.captures
        st.last_updated
    else st)

/-- onPlayerKilled of src/unnamed/part_000 (lines 378 to 390): when a
killer id is present increment kills, and independently, when a victim id
is present increment deaths. -/
def onPlayerKilled (killer victim : Option String) (stats : List StatsRec) : List StatsRec :=
  let s1 :=
    match killer with
    | none => stats
    | some k => incKills stats k
  match victim with
  | none => s1
  | some w => incDeaths s1 w

end OK

/-
Basic lemmas about the keyed stores: lookup after update-or-append, lookup
of a member under distinct keys, and the catch-up materialization.
-/

namespace DBK

theorem lookupKey_map_update {β : Type} (key : β → String) (b : β) :
    ∀ l : List β, l.any (fun x => key x == key b) = true →
      lookupKey key (l.map (fun x => if key x == key b then b else x)) (key b) = some b := by
  intro l
  induction l with
  | nil => intro h; simp at h
  | cons x xs ih =>
      intro h
      simp only [List.any_cons, Bool.or_eq_true] at h
      by_cases hx : (key x == key b) = true
      · rw [List.map_cons, if_pos hx]
        unfold lookupKey
        exact List.find?_cons_of_pos _ (by simp)
      · rw [List.map_cons, if_neg hx]
        unfold lookupKey
        rw [@List.find?_cons_of_neg β (fun y => key y == key b) x _ hx]
        exact ih (h.resolve_left hx)

theorem lookupKey_updOrAppend_self {β : Type} (key : β → String) (l : List β) (b : β) :
    lookupKey key (updOrAppend key l b) (key b) = some b := by
  unfold updOrAppend
  by_cases h : l.any (fun x => key x == key b) = true
  · rw [if_pos h]
    exact lookupKey_map_update key b l h
  · rw [if_neg h]
    unfold lookupKey
    rw [List.find?_append]
    have h1 : ∀ x ∈ l, ¬ key x = key b := by simpa using h
    have h0 : List.find? (fun x => key x == key b) l = none := by
      apply List.find?_eq_none.mpr
      intro x hx
      simpa using h1 x hx
    rw [h0]
    simp [List.find?]

theorem lookupKey_updOrAppend_ne {β : Type} (key : β → String) (l : List β) (b : β)
    (k : String) (hk : k ≠ key b) :
    lookupKey key (updOrAppend key l b) k = lookupKey key l k := by
  unfold updOrAppend
  by_cases h : l.any (fun x => key x == key b) = true
  · rw [if_pos h]
    clear h
    induction l with
    | nil => rfl
    | cons x xs ih =>
        rw [List.map_cons]
        by_cases hx : (key x == key b) = true
        · rw [if_pos hx]
          unfold lookupKey
          have hb : ¬ ((fun y => key y == k) b = true) := by
            simp only [beq_iff_eq]
            exact fun e => hk e.symm
          have hxk : ¬ ((fun y => key y == k) x = true) := by
            simp only [beq_iff_eq]
            intro e
            exact hk (e.symm.trans (beq_iff_eq.mp hx))
          rw [@List.find?_cons_of_neg β (fun y => key y == k) b _ hb,
            @List.find?_cons_of_neg β (fun y => key y == k) x _ hxk]
          exact ih
        · rw [if_neg hx]
          unfold lookupKey
          by_cases hxk : ((fun y => key y == k) x = true)
          · rw [@List.find?_cons_of_pos β (fun y => key y == k) x _ hxk,
              @List.find?_cons_of_pos β (fun y => key y == k) x _ hxk]
          · rw [@List.find?_cons_of_neg β (fun y => key y == k) x _ hxk,
              @List.find?_cons_of_neg β (fun y => key y == k) x _ hxk]
            exact ih
  · rw [if_neg h]
    unfold lookupKey
    rw [List.find?_append]
    have hb : List.find? (fun y => key y == k) [b] = none := by
      apply List.find?_eq_none.mpr
      intro x hx
      simp only [List.mem_singleton] at hx
      subst hx
      simp only [beq_iff_eq]
      exact fun e => hk e.symm
    rw [hb]
    exact Option.or_none

theorem lookupKey_of_mem_nodup {β : Type} (key : β → String) :
    ∀ (l : List β) (b : β), (l.map key).Nodup → b ∈ l → lookupKey key l (key b) = some b := by
  intro l
  induction l with
  | nil => intro b _ hb; simp at hb
  | cons x xs ih =>
      intro b hn hb
      rw [List.map_cons, List.nodup_cons] at hn
      by_cases hx : (key x == key b) = true
      · rcases List.mem_cons.mp hb with rfl | hbxs
        · unfold lookupKey
          exact List.find?_cons_of_pos _ (by simp)
        · exfalso
          have : key b ∈ xs.map key := List.mem_map_of_mem key hbxs
          rw [← beq_iff_eq.mp hx] at this
          exact hn.1 this
      · unfold lookupKey
        rw [@List.find?_cons_of_neg β (fun y => key y == key b) x _ hx]
        apply ih b hn.2
        rcases List.mem_cons.mp hb with rfl | hbxs
        · exact absurd (by simp) hx
        · exact hbxs

theorem findOne_upsert_self {α : Type} (store : List (Rec α)) (r : Rec α) :
    findOne (upsert store r) r.player_id = some r :=
  lookupKey_updOrAppend_self Rec.player_id store r

theorem findOne_upsert_ne {α : Type} (store : List (Rec α)) (r : Rec α) (id : String)
    (h : id ≠ r.player_id) : findOne (upsert store r) id = findOne store id :=
  lookupKey_updOrAppend_ne Rec.player_id store r id h

theorem readFs_writeFs_self {α : Type} (fs : List (DFile α)) (n : String) (c : Content α)
    (now : Nat) : readFs (writeFs fs n c now) n = some (DFile.mk n now c) :=
  lookupKey_updOrAppend_self DFile.name fs (DFile.mk n now c)

theorem readFs_writeFs_ne {α : Type} (fs : List (DFile α)) (n : String) (c : Content α)
    (now : Nat) (m : String) (h : m ≠ n) : readFs (writeFs fs n c now) m = readFs fs m :=
  lookupKey_updOrAppend_ne DFile.name fs (DFile.mk n now c) m h

theorem readFs_of_mem_nodup {α : Type} (fs : List (DFile α)) (f : DFile α)
    (hn : (fs.map DFile.name).Nodup) (hf : f ∈ fs) : readFs fs f.name = some f :=
  lookupKey_of_mem_nodup DFile.name fs f hn hf

theorem append_json_cancel {a b : String} (h : a ++ ".json" = b ++ ".json") : a = b := by
  apply String.ext
  have h2 := congrArg String.data h
  rw [String.data_append, String.data_append] at h2
  exact List.append_cancel_right h2

theorem materialize_cons {α : Type} (now : Nat) (skip : Rec α → Bool) (r : Rec α)
    (rest : List (Rec α)) (fs : List (DFile α)) :
    materialize now skip (r :: rest) fs =
      materialize now skip rest
        (if skip r then fs
         else writeFs fs (r.player_id ++ ".json") (stringify r.playerdata) now) := rfl

theorem materialize_frame {α : Type} (now : Nat) (skip : Rec α → Bool) :
    ∀ (rs : List (Rec α)) (fs : List (DFile α)) (n : String),
      (∀ r ∈ rs, skip r = false → r.player_id ++ ".json" ≠ n) →
      readFs (materialize now skip rs fs) n = readFs fs n := by
  intro rs
  induction rs with
  | nil => intro fs n _; rfl
  | cons r rest ih =>
      intro fs n h
      rw [materialize_cons]
      by_cases hs : skip r = true
      · rw [if_pos hs]
        exact ih _ _ (fun x hx => h x (List.mem_cons_of_mem _ hx))
      · have hs0 : skip r = false := by simpa using hs
        rw [if_neg hs]
        rw [ih _ _ (fun x hx => h x (List.mem_cons_of_mem _ hx))]
        exact readFs_writeFs_ne _ _ _ _ _ (h r (List.mem_cons_self _ _) hs0).symm

theorem materialize_write {α : Type} (now : Nat) (skip : Rec α → Bool)
    (rs : List (Rec α)) (hn : (rs.map Rec.player_id).Nodup) (r : Rec α) (hr : r ∈ rs)
    (hs : skip r = false) (fs : List (DFile α)) :
    readFs (materialize now skip rs fs) (r.player_id ++ ".json") =
      some (DFile.mk (r.player_id ++ ".json") now (stringify r.playerdata)) := by
  obtain ⟨t1, t2, rfl⟩ := List.append_of_mem hr
  have e1 : materialize now skip (t1 ++ r :: t2) fs =
      materialize now skip (r :: t2) (materialize now skip t1 fs) := by
    unfold materialize
    rw [List.foldl_append]
  rw [e1, materialize_cons, if_neg (by simp [hs])]
  have hnot : r.player_id ∉ t2.map Rec.player_id := by
    have h1 := hn
    rw [List.map_append, List.nodup_append] at h1
    have h2 := h1.2.1
    rw [List.map_cons, List.nodup_cons] at h2
    exact h2.1
  rw [materialize_frame now skip t2 _ _ ?frame]
  · exact readFs_writeFs_self _ _ _ _
  case frame =>
    intro x hx _ he
    have hxe : x.player_id = r.player_id := append_json_cancel he
    exact hnot (hxe ▸ List.mem_map_of_mem Rec.player_id hx)

end DBK

/-
Claim theorems for the event handlers, the counter merge and the gated
settings push.
-/

/-- C7: the counter merge is additive per field with absent fields treated
as zero, leaves playtime_seconds untouched, stamps last_updated with the
current time, and is accumulative: merging delta d1 and then delta d2 gives
the same totals as merging the field-wise sum of d1 and d2 once. -/
theorem ok_counter_merge_additive_assoc :
    (∀ (st : OK.StatsRec) (d : OK.Delta) (t : Nat),
        (OK.mergeStats st d t).kills = st.kills + OK.orZero d.kills ∧
        (OK.mergeStats st d t).deaths = st.deaths + OK.orZero d.deaths ∧
        (OK.mergeStats st d t).captures = st.captures + OK.orZero d.captures ∧
        (OK.mergeStats st d t).playtime_seconds = st.playtime_seconds ∧
        (OK.mergeStats st d t).player_id = st.player_id ∧
        (OK.mergeStats st d t).last_updated = t) ∧
    (∀ (st : OK.StatsRec) (d1 d2 : OK.Delta) (t1 t2 : Nat),
        OK.mergeStats (OK.mergeStats st d1 t1) d2 t2 =
          OK.mergeStats st (OK.addDelta d1 d2) t2) := by
  constructor
  · intro st d t
    exact ⟨rfl, rfl, rfl, rfl, rfl, rfl⟩
  · intro st d1 d2 t1 t2
    simp [OK.mergeStats, OK.addDelta, OK.orZero, Int.add_assoc]

/-- C5: on arrival, when a store row exists for the player the local file
is overwritten with the serialized row payload, with no freshness
comparison against the file; when no row exists the directory is returned
unchanged. -/
theorem dbkoth_connect_overwrites_file_from_store {α : Type} (now : Nat) (sid : String)
    (store : List (Rec α)) (fs : List (DFile α)) :
    (findOne store sid = none → DBKoth.onPlayerConnected now sid store fs = fs)
    ∧ (∀ r : Rec α, findOne store sid = some r →
        readFs (DBKoth.onPlayerConnected now sid store fs) (sid ++ ".json")
          = some (DFile.mk (sid ++ ".json") now (stringify r.playerdata))) := by
  constructor
  · intro h
    unfold DBKoth.onPlayerConnected
    rw [h]
  · intro r h
    unfold DBKoth.onPlayerConnected
    rw [h]
    exact readFs_writeFs_self _ _ _ _

/-- Witness for C5 at a concrete store holding a row for player s and a
directory holding a stale file for s. -/
theorem dbkoth_connect_overwrites_file_from_store_witness :
    readFs (DBKoth.onPlayerConnected 9 "s" [Rec.mk "s" 1 2 (5 : Nat)]
        [DFile.mk "s.json" 7 (Content.ok 0)]) ("s" ++ ".json")
      = some (DFile.mk ("s" ++ ".json") 9 (stringify 5)) :=
  (dbkoth_connect_overwrites_file_from_store 9 "s" [Rec.mk "s" 1 2 (5 : Nat)]
    [DFile.mk "s.json" 7 (Content.ok 0)]).2 (Rec.mk "s" 1 2 5) rfl

/-- C6: on departure, when the local file exists and parses, its payload is
upserted with lastsave set to the current time regardless of the freshness
of the existing row; when the local file does not exist the store is
returned unchanged. -/
theorem p2_disconnect_overwrites_store_from_file {α : Type} (now srv : Nat) (sid : String)
    (store : List (Rec α)) (fs : List (DFile α)) :
    (readFs fs (sid ++ ".json") = none → P2.onPlayerDisconnected now srv sid store fs = store)
    ∧ (∀ (f : DFile α) (v : α), readFs fs (sid ++ ".json") = some f →
        f.content = Content.ok v →
        findOne (P2.onPlayerDisconnected now srv sid store fs) sid
          = some (Rec.mk sid now srv v)) := by
  constructor
  · intro h
    unfold P2.onPlayerDisconnected
    rw [h]
  · intro f v h hc
    unfold P2.onPlayerDisconnected
    rw [h]
    dsimp only
    rw [hc]
    exact findOne_upsert_self store (Rec.mk sid now srv v)

/-- Witness for C6 at a store whose row for player s is strictly newer than
the local file: the file still wins on departure. -/
theorem p2_disconnect_overwrites_store_from_file_witness :
    findOne (P2.onPlayerDisconnected 9 1 "s" [Rec.mk "s" 100 2 (5 : Nat)]
        [DFile.mk "s.json" 7 (Content.ok 6)]) "s"
      = some (Rec.mk "s" 9 1 6) :=
  (p2_disconnect_overwrites_store_from_file 9 1 "s" [Rec.mk "s" 100 2 (5 : Nat)]
    [DFile.mk "s.json" 7 (Content.ok 6)]).2 (DFile.mk "s.json" 7 (Content.ok 6)) 6 rfl rfl

/-- C4: the recorded behavior of onPlayerDisconnected of part_000 at a
failing input.  The player has an open session, a stats row and a local
file whose content JSON.parse rejects; the handler returns with the store,
the stats and the session map all unchanged, so the session is not deleted
and no playtime is accumulated, contradicting the claim that the session is
still closed. -/
theorem ok_disconnect_invalid_json_leaves_session_open :
    OK.onPlayerDisconnected 61000 1 "76561198000000001" ([] : List (Rec Nat))
        [OK.StatsRec.mk "76561198000000001" 100 2 3 4 50]
        [("76561198000000001", 1000)]
        [DFile.mk "76561198000000001.json" 5 (Content.bad "not json")]
      = ([], [OK.StatsRec.mk "76561198000000001" 100 2 3 4 50],
          [("76561198000000001", 1000)])
    ∧ ("76561198000000001", 1000) ∈
        (OK.onPlayerDisconnected 61000 1 "76561198000000001" ([] : List (Rec Nat))
          [OK.StatsRec.mk "76561198000000001" 100 2 3 4 50]
          [("76561198000000001", 1000)]
          [DFile.mk "76561198000000001.json" 5 (Content.bad "not json")]).2.2 := by
  constructor
  · decide
  · decide

/-- C8: in the gated variant, a periodic sweep (sync enabled) first takes
the active-player count from the allow-list file; when the count is at
least fifty and a ServerSettings row exists the row payload is written over
ServerSettings.json, and when the count is below fifty the sweep leaves the
directory untouched. -/
theorem ok_gated_settings_push_threshold {α : Type} (statsOf : α → OK.Delta)
    (plf : OK.PLFile) (now srv : Nat) (store : List (Rec α)) (stats : List OK.StatsRec)
    (fs : List (DFile α)) :
    (∀ r : Rec α, 50 ≤ (OK.readPlayerList plf).length →
        findOne store "ServerSettings" = some r →
        readFs (OK.syncKothFiles statsOf plf true now srv store stats fs).2.2
            "ServerSettings.json"
          = some (DFile.mk "ServerSettings.json" now (stringify r.playerdata)))
    ∧ ((OK.readPlayerList plf).length < 50 →
        (OK.syncKothFiles statsOf plf true now srv store stats fs).2.2 = fs) := by
  constructor
  · intro r h50 hr
    show readFs
        (if 50 ≤ (OK.readPlayerList plf).length ∧ true = true then
          OK.syncServerSettings now store fs
         else fs) "ServerSettings.json" = _
    rw [if_pos ⟨h50, rfl⟩]
    unfold OK.syncServerSettings
    rw [hr]
    exact readFs_writeFs_self _ _ _ _
  · intro h50
    show (if 50 ≤ (OK.readPlayerList plf).length ∧ true = true then
        OK.syncServerSettings now store fs
      else fs) = fs
    rw [if_neg (fun hc => absurd hc.1 (Nat.not_le.mpr h50))]

/-- Witness for C8 at an allow list of exactly fifty players and a store
holding a ServerSettings row. -/
theorem ok_gated_settings_push_threshold_witness :
    readFs (OK.syncKothFiles (fun _ => OK.Delta.mk none none none)
        (OK.PLFile.players (List.replicate 50 "p")) true 9 1
        [Rec.mk "ServerSettings" 0 0 (7 : Nat)] [] []).2.2 "ServerSettings.json"
      = some (DFile.mk "ServerSettings.json" 9 (stringify 7)) :=
  (ok_gated_settings_push_threshold (fun _ => OK.Delta.mk none none none)
    (OK.PLFile.players (List.replicate 50 "p")) 9 1
    [Rec.mk "ServerSettings" 0 0 (7 : Nat)] [] []).1
    (Rec.mk "ServerSettings" 0 0 7) (by decide) rfl

/-- Pointwise characterization of onPlayerKilled: every row keeps its id,
captures, playtime and timestamp, kills grows by one exactly on a killer
match and deaths by one exactly on a victim match. -/
theorem onPlayerKilled_map (killer victim : Option String) (stats : List OK.StatsRec) :
    OK.onPlayerKilled killer victim stats = stats.map (fun s =>
      OK.StatsRec.mk s.player_id s.playtime_seconds
        (s.kills + (if killer = some s.player_id then 1 else 0))
        (s.deaths + (if victim = some s.player_id then 1 else 0))
        s.captures s.last_updated) := by
  cases killer with
  | none =>
      cases victim with
      | none =>
          unfold OK.onPlayerKilled
          dsimp only
          apply Eq.symm
          apply List.map_eq_map_iff.mpr ?h |>.trans (List.map_id stats)
          case h => intro s _; simp
      | some w =>
          unfold OK.onPlayerKilled OK.incDeaths
          dsimp only
          apply List.map_eq_map_iff.mpr
          intro s _
          by_cases hw : s.player_id = w
          · simp [← hw]
          · simp [hw, Ne.symm hw]
  | some k =>
      cases victim with
      | none =>
          unfold OK.onPlayerKilled OK.incKills
          dsimp only
          apply List.map_eq_map_iff.mpr
          intro s _
          by_cases hk : s.player_id = k
          · simp [← hk]
          · simp [hk, Ne.symm hk]
      | some w =>
          unfold OK.onPlayerKilled OK.incKills OK.incDeaths
          dsimp only
          rw [List.map_map]
          apply List.map_eq_map_iff.mpr
          intro s _
          simp only [Function.comp]
          by_cases hk : s.player_id = k
          · by_cases hw : s.player_id = w
            · simp [← hk, ← hw]
            · rw [← hk]
              simp [hw, Ne.symm hw]
          · by_cases hw : s.player_id = w
            · rw [← hw]
              simp [hk, Ne.symm hk]
            · simp [hk, hw, Ne.symm hk, Ne.symm hw]

/-- C9: for every stats row, an elimination event leaves a row with the
same id whose kills grew by one exactly when the killer id matches, whose
deaths grew by one exactly when the victim id matches (independently, so
either, both, or neither), and whose captures, playtime and last_updated
are unchanged. -/
theorem ok_player_killed_increments (killer victim : Option String)
    (stats : List OK.StatsRec) (st : OK.StatsRec) (hm : st ∈ stats) :
    ∃ st2 ∈ OK.onPlayerKilled killer victim stats,
      st2.player_id = st.player_id ∧
      st2.kills = st.kills + (if killer = some st.player_id then 1 else 0) ∧
      st2.deaths = st.deaths + (if victim = some st.player_id then 1 else 0) ∧
      st2.captures = st.captures ∧
      st2.playtime_seconds = st.playtime_seconds ∧
      st2.last_updated = st.last_updated := by
  rw [onPlayerKilled_map]
  exact ⟨_, List.mem_map_of_mem _ hm, rfl, rfl, rfl, rfl, rfl, rfl⟩

/-- Witness for C9: an elimination with killer a and victim b over three
stats rows bumps the kills of a by one. -/
theorem ok_player_killed_increments_witness :
    ∃ st2 ∈ OK.onPlayerKilled (some "a") (some "b")
        [OK.StatsRec.mk "a" 0 1 2 3 4, OK.StatsRec.mk "b" 0 5 6 7 8,
          OK.StatsRec.mk "c" 0 9 10 11 12],
      st2.player_id = (OK.StatsRec.mk "a" 0 1 2 3 4).player_id ∧
      st2.kills = (OK.StatsRec.mk "a" 0 1 2 3 4).kills +
        (if some "a" = some (OK.StatsRec.mk "a" 0 1 2 3 4).player_id then 1 else 0) ∧
      st2.deaths = (OK.StatsRec.mk "a" 0 1 2 3 4).deaths +
        (if some "b" = some (OK.StatsRec.mk "a" 0 1 2 3 4).player_id then 1 else 0) ∧
      st2.captures = (OK.StatsRec.mk "a" 0 1 2 3 4).captures ∧
      st2.playtime_seconds = (OK.StatsRec.mk "a" 0 1 2 3 4).playtime_seconds ∧
      st2.last_updated = (OK.StatsRec.mk "a" 0 1 2 3 4).last_updated :=
  ok_player_killed_increments (some "a") (some "b")
    [OK.StatsRec.mk "a" 0 1 2 3 4, OK.StatsRec.mk "b" 0 5 6 7 8,
      OK.StatsRec.mk "c" 0 9 10 11 12]
    (OK.StatsRec.mk "a" 0 1 2 3 4) (by decide)

/-
Lemmas about the entity id derivation: splitting before the first
occurrence of .json, and occurrence counting.
-/

namespace DBK

theorem occCount_pos (s : List Char) (h : jsonExt <:+ s) : 1 ≤ occCount jsonExt s := by
  induction s with
  | nil =>
      rw [List.suffix_nil] at h
      exact absurd h (by decide)
  | cons c rest ih =>
      unfold occCount
      rcases List.suffix_cons_iff.mp h with heq | hsuf
      · have hp : jsonExt.isPrefixOf (c :: rest) = true := by
          rw [← heq]
          exact List.isPrefixOf_iff_prefix.mpr (List.prefix_refl _)
        rw [if_pos hp]
        omega
      · have h1 := ih hsuf
        by_cases hp : jsonExt.isPrefixOf (c :: rest) = true
        · rw [if_pos hp]; omega
        · rw [if_neg hp]; omega

theorem split_append_iff (s : List Char) (h : jsonExt <:+ s) :
    splitBeforeFirst jsonExt s ++ jsonExt = s ↔ occCount jsonExt s = 1 := by
  induction s with
  | nil =>
      rw [List.suffix_nil] at h
      exact absurd h (by decide)
  | cons c rest ih =>
      by_cases hp : jsonExt.isPrefixOf (c :: rest) = true
      · unfold splitBeforeFirst occCount
        rw [if_pos hp, if_pos hp]
        simp only [List.nil_append]
        constructor
        · intro he
          have h5 : jsonExt = ['.', 'j', 's', 'o', 'n'] := by decide
          rw [h5] at he
          injection he with h6 h7
          have h0 : occCount jsonExt rest = 0 := by
            rw [← h7]
            decide
          omega
        · intro hc
          rcases List.suffix_cons_iff.mp h with heq | hsuf
          · exact heq
          · exact absurd (occCount_pos rest hsuf) (by omega)
      · unfold splitBeforeFirst occCount
        rw [if_neg hp, if_neg hp]
        have hsuf : jsonExt <:+ rest := by
          rcases List.suffix_cons_iff.mp h with heq | hsuf
          · exfalso
            apply hp
            rw [← heq]
            exact List.isPrefixOf_iff_prefix.mpr (List.prefix_refl _)
          · exact hsuf
        have key := ih hsuf
        constructor
        · intro he
          rw [List.cons_append] at he
          injection he with h6 h7
          have := key.mp h7
          omega
        · intro hc
          have h2 : occCount jsonExt rest = 1 := by omega
          rw [List.cons_append, key.mpr h2]

end DBK

/-- C10: the sweeps derive the entity id as the substring before the first
occurrence of .json, not by stripping the final extension: a.json.json and
a.json.b.json are both processed under id a, and for a filename passing the
endsWith .json filter, recomposing the derived id with the naming
convention reproduces the filename exactly when .json occurs exactly once
in it (hence at the end). -/
theorem derive_id_first_json_occurrence :
    deriveId "a.json.json" = "a" ∧ deriveId "a.json.b.json" = "a" ∧
    ∀ n : String, endsJson n = true →
      ((deriveId n ++ ".json" = n) ↔ occCount jsonExt n.data = 1) := by
  refine ⟨by decide, by decide, ?_⟩
  intro n h
  have hsuf : jsonExt <:+ n.data := List.isSuffixOf_iff_suffix.mp h
  have key := split_append_iff n.data hsuf
  constructor
  · intro he
    apply key.mp
    have h2 := congrArg String.data he
    rw [String.data_append] at h2
    exact h2
  · intro hc
    apply String.ext
    rw [String.data_append]
    exact key.mpr hc

/-- Witness for C10 at the conventional filename x.json. -/
theorem derive_id_first_json_occurrence_witness :
    (deriveId "x.json" ++ ".json" = "x.json") ↔ occCount jsonExt "x.json".data = 1 :=
  derive_id_first_json_occurrence.2.2 "x.json" (by decide)

/-
Lemmas about the per-file loop of src/DBKoth.js.
-/

namespace DBK

theorem endsJson_of_convention {n : String} (h : deriveId n ++ ".json" = n) :
    endsJson n = true := by
  unfold endsJson
  apply List.isSuffixOf_iff_suffix.mpr
  refine ⟨(deriveId n).data, ?_⟩
  have h2 := congrArg String.data h
  rw [String.data_append] at h2
  exact h2

theorem deriveId_inj_of_convention {m n : String} (hm : deriveId m ++ ".json" = m)
    (hn : deriveId n ++ ".json" = n) (h : deriveId m = deriveId n) : m = n := by
  rw [← hm, ← hn, h]

theorem contains_of_mem {l : List String} {a : String} (h : a ∈ l) : l.contains a = true :=
  List.elem_iff.mpr h

theorem not_mem_of_contains_eq_false {l : List String} {a : String}
    (h : l.contains a = false) : a ∉ l := fun hm => by
  rw [contains_of_mem hm] at h
  cases h

end DBK

namespace DBKoth

theorem fileStep_skip {α : Type} (now srv : Nat) (s : SState α) (f : DFile α)
    (h : ¬ endsJson f.name = true) : fileStep now srv s f = some s := by
  unfold fileStep
  rw [if_neg h]

theorem fileStep_upsert {α : Type} (now srv : Nat) (s : SState α) (f : DFile α) (v : α)
    (he : endsJson f.name = true)
    (hdb : findOne s.store (deriveId f.name) = none)
    (hv : f.content = Content.ok v) :
    fileStep now srv s f =
      some (SState.mk (upsert s.store (Rec.mk (deriveId f.name) now srv v)) s.files
        (s.processed ++ [deriveId f.name])) := by
  unfold fileStep
  rw [if_pos he]
  dsimp only
  rw [hdb]
  dsimp only
  rw [hv]
  rfl

theorem fileStep_newer {α : Type} (now srv : Nat) (s : SState α) (f : DFile α) (r : Rec α)
    (v : α) (he : endsJson f.name = true)
    (hdb : findOne s.store (deriveId f.name) = some r)
    (hlt : r.lastsave < f.mtime)
    (hv : f.content = Content.ok v) :
    fileStep now srv s f =
      some (SState.mk (upsert s.store (Rec.mk (deriveId f.name) now srv v)) s.files
        (s.processed ++ [deriveId f.name])) := by
  unfold fileStep
  rw [if_pos he]
  dsimp only
  rw [hdb]
  dsimp only
  rw [if_pos hlt, hv]
  rfl

theorem fileStep_storeWins {α : Type} (now srv : Nat) (s : SState α) (f : DFile α) (r : Rec α)
    (he : endsJson f.name = true)
    (hdb : findOne s.store (deriveId f.name) = some r)
    (hge : ¬ r.lastsave < f.mtime) :
    fileStep now srv s f =
      some (SState.mk s.store (writeFs s.files f.name (stringify r.playerdata) now)
        (s.processed ++ [deriveId f.name])) := by
  unfold fileStep
  rw [if_pos he]
  dsimp only
  rw [hdb]
  dsimp only
  rw [if_neg hge]

theorem fileStep_some {α : Type} (now srv : Nat) (s : SState α) (f : DFile α)
    (hv : ∃ v, f.content = Content.ok v) : ∃ s1, fileStep now srv s f = some s1 := by
  obtain ⟨v, hv⟩ := hv
  by_cases he : endsJson f.name = true
  · cases hdb : findOne s.store (deriveId f.name) with
    | none => exact ⟨_, fileStep_upsert now srv s f v he hdb hv⟩
    | some r =>
        by_cases hlt : r.lastsave < f.mtime
        · exact ⟨_, fileStep_newer now srv s f r v he hdb hlt hv⟩
        · exact ⟨_, fileStep_storeWins now srv s f r he hdb hlt⟩
  · exact ⟨s, fileStep_skip now srv s f he⟩

theorem fileStep_some_frame {α : Type} (now srv : Nat) (s s1 : SState α) (f : DFile α)
    (hstep : fileStep now srv s f = some s1) :
    (s1.store = s.store ∨
        ∃ v, s1.store = upsert s.store (Rec.mk (deriveId f.name) now srv v)) ∧
    (s1.files = s.files ∨ ∃ c, s1.files = writeFs s.files f.name c now) ∧
    s1.processed = s.processed ++
      (if endsJson f.name = true then [deriveId f.name] else []) := by
  by_cases he : endsJson f.name = true
  · rw [if_pos he]
    cases hdb : findOne s.store (deriveId f.name) with
    | none =>
        cases hv : parse f.content with
        | none =>
            exfalso
            unfold fileStep at hstep
            rw [if_pos he] at hstep
            dsimp only at hstep
            rw [hdb] at hstep
            dsimp only at hstep
            rw [hv] at hstep
            cases hstep
        | some v =>
            have hv2 : f.content = Content.ok v := by
              cases hc : f.content with
              | ok w => rw [hc] at hv; cases hv; rfl
              | bad raw => rw [hc] at hv; cases hv
            rw [fileStep_upsert now srv s f v he hdb hv2] at hstep
            injection hstep with h1
            subst h1
            exact ⟨Or.inr ⟨v, rfl⟩, Or.inl rfl, rfl⟩
    | some r =>
        by_cases hlt : r.lastsave < f.mtime
        · cases hv : parse f.content with
          | none =>
              exfalso
              unfold fileStep at hstep
              rw [if_pos he] at hstep
              dsimp only at hstep
              rw [hdb] at hstep
              dsimp only at hstep
              rw [if_pos hlt, hv] at hstep
              cases hstep
          | some v =>
              have hv2 : f.content = Content.ok v := by
                cases hc : f.content with
                | ok w => rw [hc] at hv; cases hv; rfl
                | bad raw => rw [hc] at hv; cases hv
              rw [fileStep_newer now srv s f r v he hdb hlt hv2] at hstep
              injection hstep with h1
              subst h1
              exact ⟨Or.inr ⟨v, rfl⟩, Or.inl rfl, rfl⟩
        · rw [fileStep_storeWins now srv s f r he hdb hlt] at hstep
          injection hstep with h1
          subst h1
          exact ⟨Or.inl rfl, Or.inr ⟨stringify r.playerdata, rfl⟩, rfl⟩
  · rw [fileStep_skip now srv s f he] at hstep
    injection hstep with h1
    subst h1
    rw [if_neg he, List.append_nil]
    exact ⟨Or.inl rfl, Or.inl rfl, rfl⟩

theorem loop_append {α : Type} (now srv : Nat) :
    ∀ (l1 l2 : List (DFile α)) (s : SState α),
      loop now srv (l1 ++ l2) s =
        match loop now srv l1 s with
        | (s1, false) => loop now srv l2 s1
        | (s1, true) => (s1, true) := by
  intro l1
  induction l1 with
  | nil => intro l2 s; rfl
  | cons f t ih =>
      intro l2 s
      simp only [List.cons_append, loop]
      cases hstep : fileStep now srv s f with
      | none => rfl
      | some s1 => exact ih l2 s1

theorem loop_frame {α : Type} (now srv : Nat) (id n : String) :
    ∀ (l : List (DFile α)) (s : SState α),
      (∀ g ∈ l, ∃ v, g.content = Content.ok v) →
      (∀ g ∈ l, deriveId g.name ≠ id) →
      (∀ g ∈ l, g.name ≠ n) →
      (loop now srv l s).2 = false ∧
      findOne (loop now srv l s).1.store id = findOne s.store id ∧
      readFs (loop now srv l s).1.files n = readFs s.files n ∧
      ∀ x ∈ s.processed, x ∈ (loop now srv l s).1.processed := by
  intro l
  induction l with
  | nil => intro s _ _ _; exact ⟨rfl, rfl, rfl, fun x hx => hx⟩
  | cons f t ih =>
      intro s hok hid hn
      obtain ⟨s1, hstep⟩ := fileStep_some now srv s f (hok f (List.mem_cons_self f t))
      have hfr := fileStep_some_frame now srv s s1 f hstep
      simp only [loop]
      rw [hstep]
      have iht := ih s1 (fun g hg => hok g (List.mem_cons_of_mem f hg))
        (fun g hg => hid g (List.mem_cons_of_mem f hg))
        (fun g hg => hn g (List.mem_cons_of_mem f hg))
      refine ⟨iht.1, ?_, ?_, ?_⟩
      · rw [iht.2.1]
        rcases hfr.1 with h1 | ⟨v, h1⟩
        · rw [h1]
        · rw [h1]
          exact findOne_upsert_ne s.store (Rec.mk (deriveId f.name) now srv v) id
            (Ne.symm (hid f (List.mem_cons_self f t)))
      · rw [iht.2.2.1]
        rcases hfr.2.1 with h1 | ⟨c, h1⟩
        · rw [h1]
        · rw [h1]
          exact readFs_writeFs_ne s.files f.name c now n
            (Ne.symm (hn f (List.mem_cons_self f t)))
      · intro x hx
        apply iht.2.2.2
        rw [hfr.2.2]
        exact List.mem_append_left _ hx

theorem loop_processed {α : Type} (now srv : Nat) :
    ∀ (l : List (DFile α)) (s : SState α),
      (∀ g ∈ l, ∃ v, g.content = Content.ok v) →
      (loop now srv l s).1.processed = s.processed ++ processedIds l := by
  intro l
  induction l with
  | nil => intro s _; simp [loop, processedIds]
  | cons f t ih =>
      intro s hok
      obtain ⟨s1, hstep⟩ := fileStep_some now srv s f (hok f (List.mem_cons_self f t))
      have hfr := fileStep_some_frame now srv s s1 f hstep
      simp only [loop]
      rw [hstep]
      rw [ih s1 (fun g hg => hok g (List.mem_cons_of_mem f hg))]
      rw [hfr.2.2]
      unfold processedIds
      by_cases he : endsJson f.name = true
      · rw [if_pos he]
        simp [List.filter_cons, he, List.append_assoc]
      · rw [if_neg he]
        simp only [List.filter_cons]
        rw [if_neg (by simpa using he)]
        simp [processedIds]

end DBKoth

namespace DBKoth

theorem side_conditions {α : Type} (l1 l2 : List (DFile α)) (f : DFile α)
    (hn : ((l1 ++ f :: l2).map DFile.name).Nodup)
    (hder : ∀ g ∈ l1 ++ f :: l2, deriveId g.name ++ ".json" = g.name) :
    (∀ g ∈ l1, deriveId g.name ≠ deriveId f.name ∧ g.name ≠ f.name) ∧
    (∀ g ∈ l2, deriveId g.name ≠ deriveId f.name ∧ g.name ≠ f.name) := by
  have hfmem : f ∈ l1 ++ f :: l2 := List.mem_append_right _ (List.mem_cons_self f l2)
  have hinj := List.inj_on_of_nodup_map hn
  have hnodupF : (l1 ++ f :: l2).Nodup := List.Nodup.of_map DFile.name hn
  have hd := List.nodup_append.mp hnodupF
  have hfl1 : f ∉ l1 := fun hmem => hd.2.2 hmem (List.mem_cons_self f l2)
  have hfl2 : f ∉ l2 := (List.nodup_cons.mp hd.2.1).1
  constructor
  · intro g hg
    have hgmem : g ∈ l1 ++ f :: l2 := List.mem_append_left _ hg
    have hgne : g ≠ f := fun he => hfl1 (he ▸ hg)
    have hname : g.name ≠ f.name := fun he => hgne (hinj hgmem hfmem he)
    exact ⟨fun he => hname
      (deriveId_inj_of_convention (hder g hgmem) (hder f hfmem) he), hname⟩
  · intro g hg
    have hgmem : g ∈ l1 ++ f :: l2 :=
      List.mem_append_right _ (List.mem_cons_of_mem f hg)
    have hgne : g ≠ f := fun he => hfl2 (he ▸ hg)
    have hname : g.name ≠ f.name := fun he => hgne (hinj hgmem hfmem he)
    exact ⟨fun he => hname
      (deriveId_inj_of_convention (hder g hgmem) (hder f hfmem) he), hname⟩

theorem sweep_phase1 {α : Type} (now srv : Nat) (store0 : List (Rec α))
    (l1 l2 : List (DFile α)) (f : DFile α)
    (hn : ((l1 ++ f :: l2).map DFile.name).Nodup)
    (hder : ∀ g ∈ l1 ++ f :: l2, deriveId g.name ++ ".json" = g.name)
    (hok : ∀ g ∈ l1 ++ f :: l2, ∃ w, g.content = Content.ok w) :
    loop now srv l1 (SState.mk store0 (l1 ++ f :: l2) []) =
      ((loop now srv l1 (SState.mk store0 (l1 ++ f :: l2) [])).1, false) ∧
    findOne (loop now srv l1 (SState.mk store0 (l1 ++ f :: l2) [])).1.store
        (deriveId f.name) = findOne store0 (deriveId f.name) ∧
    readFs (loop now srv l1 (SState.mk store0 (l1 ++ f :: l2) [])).1.files f.name
      = some f := by
  have hsides := side_conditions l1 l2 f hn hder
  have hfr := loop_frame now srv (deriveId f.name) f.name l1
    (SState.mk store0 (l1 ++ f :: l2) [])
    (fun g hg => hok g (List.mem_append_left _ hg))
    (fun g hg => (hsides.1 g hg).1)
    (fun g hg => (hsides.1 g hg).2)
  refine ⟨Prod.snd_eq_iff.mp hfr.1, hfr.2.1, ?_⟩
  rw [hfr.2.2.1]
  exact readFs_of_mem_nodup _ f hn
    (List.mem_append_right _ (List.mem_cons_self f l2))

theorem sweep_phase2 {α : Type} (now srv : Nat) (store0 : List (Rec α))
    (l1 l2 : List (DFile α)) (f : DFile α) (s2 : SState α)
    (hn : ((l1 ++ f :: l2).map DFile.name).Nodup)
    (hder : ∀ g ∈ l1 ++ f :: l2, deriveId g.name ++ ".json" = g.name)
    (hok : ∀ g ∈ l1 ++ f :: l2, ∃ w, g.content = Content.ok w)
    (hstep : fileStep now srv
      (loop now srv l1 (SState.mk store0 (l1 ++ f :: l2) [])).1 f = some s2)
    (hproc : deriveId f.name ∈ s2.processed) :
    syncKothFiles now srv store0 (l1 ++ f :: l2)
      = catchUp now (loop now srv l2 s2).1 ∧
    findOne (catchUp now (loop now srv l2 s2).1).store (deriveId f.name)
      = findOne s2.store (deriveId f.name) ∧
    readFs (catchUp now (loop now srv l2 s2).1).files f.name
      = readFs s2.files f.name := by
  have hfmem : f ∈ l1 ++ f :: l2 := List.mem_append_right _ (List.mem_cons_self f l2)
  have hsides := side_conditions l1 l2 f hn hder
  have hfr1 := loop_frame now srv (deriveId f.name) f.name l1
    (SState.mk store0 (l1 ++ f :: l2) [])
    (fun g hg => hok g (List.mem_append_left _ hg))
    (fun g hg => (hsides.1 g hg).1)
    (fun g hg => (hsides.1 g hg).2)
  have hfr2 := loop_frame now srv (deriveId f.name) f.name l2 s2
    (fun g hg => hok g (List.mem_append_right _ (List.mem_cons_of_mem f hg)))
    (fun g hg => (hsides.2 g hg).1)
    (fun g hg => (hsides.2 g hg).2)
  have hl1 : loop now srv l1 (SState.mk store0 (l1 ++ f :: l2) []) =
      ((loop now srv l1 (SState.mk store0 (l1 ++ f :: l2) [])).1, false) :=
    Prod.snd_eq_iff.mp hfr1.1
  have hl2 : loop now srv l2 s2 = ((loop now srv l2 s2).1, false) :=
    Prod.snd_eq_iff.mp hfr2.1
  have hfull : loop now srv (l1 ++ f :: l2) (SState.mk store0 (l1 ++ f :: l2) []) =
      ((loop now srv l2 s2).1, false) := by
    rw [loop_append now srv l1 (f :: l2) (SState.mk store0 (l1 ++ f :: l2) []), hl1]
    show loop now srv (f :: l2)
      (loop now srv l1 (SState.mk store0 (l1 ++ f :: l2) [])).1 = _
    simp only [loop]
    rw [hstep]
    exact hl2
  refine ⟨?_, hfr2.2.1, ?_⟩
  · unfold syncKothFiles
    rw [hfull]
  · have hmemfin : deriveId f.name ∈ (loop now srv l2 s2).1.processed :=
      hfr2.2.2.2 _ hproc
    have hcf : readFs (catchUp now (loop now srv l2 s2).1).files f.name
        = readFs (loop now srv l2 s2).1.files f.name := by
      show readFs (materialize now _ _ _) f.name = _
      apply materialize_frame
      intro r _ hskip he
      have hre : r.player_id = deriveId f.name :=
        append_json_cancel (he.trans (hder f hfmem).symm)
      rw [hre, contains_of_mem hmemfin] at hskip
      cases hskip
    rw [hcf, hfr2.2.2.1]

end DBKoth

/-- C1: one sweep of src/DBKoth.js over a directory of well-formed entity
files following the naming convention reconciles every file: when no row
exists for the derived id, or the file mtime is strictly newer than the row
lastsave, the parsed file content is upserted with lastsave set to the
current time and the file is untouched (the file wins); otherwise,
including ties, the row payload is serialized over the file and the row is
untouched (the store wins).  In every case the surviving row payload and
file content agree. -/
theorem dbkoth_sweep_reconciles_each_file {α : Type} (now srv : Nat)
    (store0 : List (Rec α)) (files0 : List (DFile α))
    (hn : (files0.map DFile.name).Nodup)
    (hder : ∀ g ∈ files0, deriveId g.name ++ ".json" = g.name)
    (hok : ∀ g ∈ files0, ∃ w, g.content = Content.ok w)
    (f : DFile α) (hf : f ∈ files0) (v : α) (hv : f.content = Content.ok v) :
    match findOne store0 (deriveId f.name) with
    | none =>
        findOne (DBKoth.syncKothFiles now srv store0 files0).store (deriveId f.name)
          = some (Rec.mk (deriveId f.name) now srv v)
        ∧ readFs (DBKoth.syncKothFiles now srv store0 files0).files f.name = some f
    | some r =>
        if r.lastsave < f.mtime then
          findOne (DBKoth.syncKothFiles now srv store0 files0).store (deriveId f.name)
            = some (Rec.mk (deriveId f.name) now srv v)
          ∧ readFs (DBKoth.syncKothFiles now srv store0 files0).files f.name = some f
        else
          findOne (DBKoth.syncKothFiles now srv store0 files0).store (deriveId f.name)
            = some r
          ∧ readFs (DBKoth.syncKothFiles now srv store0 files0).files f.name
              = some (DFile.mk f.name now (stringify r.playerdata)) := by
  obtain ⟨l1, l2, rfl⟩ := List.append_of_mem hf
  have hfmem : f ∈ l1 ++ f :: l2 := List.mem_append_right _ (List.mem_cons_self f l2)
  have he : endsJson f.name = true := endsJson_of_convention (hder f hfmem)
  have hP1 := DBKoth.sweep_phase1 now srv store0 l1 l2 f hn hder hok
  cases hdb0 : findOne store0 (deriveId f.name) with
  | none =>
      have hdb1 : findOne
          (DBKoth.loop now srv l1 (SState.mk store0 (l1 ++ f :: l2) [])).1.store
          (deriveId f.name) = none := hP1.2.1.trans hdb0
      have hstep := DBKoth.fileStep_upsert now srv _ f v he hdb1 hv
      have hP2 := DBKoth.sweep_phase2 now srv store0 l1 l2 f _ hn hder hok hstep
        (List.mem_append_right _ (List.mem_cons_self _ _))
      constructor
      · rw [hP2.1, hP2.2.1]
        exact findOne_upsert_self _ (Rec.mk (deriveId f.name) now srv v)
      · rw [hP2.1, hP2.2.2]
        exact hP1.2.2
  | some r =>
      dsimp only
      by_cases hlt : r.lastsave < f.mtime
      · rw [if_pos hlt]
        have hdb1 : findOne
            (DBKoth.loop now srv l1 (SState.mk store0 (l1 ++ f :: l2) [])).1.store
            (deriveId f.name) = some r := hP1.2.1.trans hdb0
        have hstep := DBKoth.fileStep_newer now srv _ f r v he hdb1 hlt hv
        have hP2 := DBKoth.sweep_phase2 now srv store0 l1 l2 f _ hn hder hok hstep
          (List.mem_append_right _ (List.mem_cons_self _ _))
        constructor
        · rw [hP2.1, hP2.2.1]
          exact findOne_upsert_self _ (Rec.mk (deriveId f.name) now srv v)
        · rw [hP2.1, hP2.2.2]
          exact hP1.2.2
      · rw [if_neg hlt]
        have hdb1 : findOne
            (DBKoth.loop now srv l1 (SState.mk store0 (l1 ++ f :: l2) [])).1.store
            (deriveId f.name) = some r := hP1.2.1.trans hdb0
        have hstep := DBKoth.fileStep_storeWins now srv _ f r he hdb1 hlt
        have hP2 := DBKoth.sweep_phase2 now srv store0 l1 l2 f _ hn hder hok hstep
          (List.mem_append_right _ (List.mem_cons_self _ _))
        constructor
        · rw [hP2.1, hP2.2.1]
          exact hdb1
        · rw [hP2.1, hP2.2.2]
          exact readFs_writeFs_self _ f.name (stringify r.playerdata) now

/-- Witness for C1 at a directory holding one well-formed file with no
store row: the sweep creates the row and leaves the file untouched. -/
theorem dbkoth_sweep_reconciles_each_file_witness :
    findOne (DBKoth.syncKothFiles 100 3 ([] : List (Rec Nat))
        [DFile.mk "7.json" 5 (Content.ok 42)]).store (deriveId "7.json")
      = some (Rec.mk (deriveId "7.json") 100 3 42)
    ∧ readFs (DBKoth.syncKothFiles 100 3 ([] : List (Rec Nat))
        [DFile.mk "7.json" 5 (Content.ok 42)]).files "7.json"
      = some (DFile.mk "7.json" 5 (Content.ok 42)) :=
  dbkoth_sweep_reconciles_each_file 100 3 [] [DFile.mk "7.json" 5 (Content.ok 42)]
    (by decide) (by decide)
    (fun g hg => by rw [List.mem_singleton.mp hg]; exact ⟨42, rfl⟩)
    (DFile.mk "7.json" 5 (Content.ok 42)) (by decide) 42 rfl

/-
Lemmas about the per-file loop and catch-up pass of src/unnamed/part_001.
-/

namespace DBK

theorem content_ok_of_parse {α : Type} {c : Content α} {v : α} (h : parse c = some v) :
    c = Content.ok v := by
  cases c with
  | ok w =>
      have : w = v := by simpa [parse] using h
      rw [this]
  | bad raw => simp [parse] at h

theorem upsert_ids_nodup {α : Type} (store : List (Rec α)) (b : Rec α)
    (hn : (store.map Rec.player_id).Nodup) :
    ((upsert store b).map Rec.player_id).Nodup := by
  unfold upsert updOrAppend
  by_cases h : store.any (fun x => Rec.player_id x == Rec.player_id b) = true
  · rw [if_pos h]
    have hids : List.map Rec.player_id
        (store.map (fun x => if Rec.player_id x == Rec.player_id b then b else x))
        = store.map Rec.player_id := by
      rw [List.map_map]
      apply List.map_eq_map_iff.mpr
      intro x _
      by_cases hx : (Rec.player_id x == Rec.player_id b) = true
      · simp only [Function.comp]
        rw [if_pos hx]
        exact (beq_iff_eq.mp hx).symm
      · simp only [Function.comp]
        rw [if_neg hx]
    rw [hids]
    exact hn
  · rw [if_neg h]
    rw [List.map_append]
    rw [List.nodup_append]
    refine ⟨hn, List.nodup_singleton _, ?_⟩
    intro a ha hb
    have hb2 : a = b.player_id := by simpa using hb
    subst hb2
    obtain ⟨x, hx, hxe⟩ := List.mem_map.mp ha
    have : store.any (fun x => Rec.player_id x == Rec.player_id b) = true :=
      List.any_eq_true.mpr ⟨x, hx, by simp [hxe]⟩
    exact h this

theorem mem_upsert_of_ne {α : Type} {store : List (Rec α)} {b r : Rec α}
    (hr : r ∈ store) (hne : r.player_id ≠ b.player_id) : r ∈ upsert store b := by
  unfold upsert updOrAppend
  by_cases h : store.any (fun x => Rec.player_id x == Rec.player_id b) = true
  · rw [if_pos h]
    have he : (fun x => if Rec.player_id x == Rec.player_id b then b else x) r = r := by
      dsimp only
      rw [if_neg (by simp [hne])]
    exact he ▸ List.mem_map_of_mem _ hr
  · rw [if_neg h]
    exact List.mem_append_left _ hr

end DBK

namespace P1

theorem p1Step_skip {α : Type} (now srv : Nat) (s : SState α) (f : DFile α)
    (he : ¬ isEntityFile f.name = true) : fileStep now srv s f = s := by
  unfold fileStep
  rw [if_neg he]

theorem p1Step_bad_none {α : Type} (now srv : Nat) (s : SState α) (f : DFile α)
    (he : isEntityFile f.name = true)
    (hdb : findOne s.store (deriveId f.name) = none)
    (hv : parse f.content = none) :
    fileStep now srv s f = SState.mk s.store s.files (s.processed ++ [deriveId f.name]) := by
  unfold fileStep
  rw [if_pos he]
  dsimp only
  rw [hdb]
  dsimp only
  rw [hv]

theorem p1Step_bad_newer {α : Type} (now srv : Nat) (s : SState α) (f : DFile α) (r : Rec α)
    (he : isEntityFile f.name = true)
    (hdb : findOne s.store (deriveId f.name) = some r)
    (hlt : r.lastsave < f.mtime)
    (hv : parse f.content = none) :
    fileStep now srv s f = SState.mk s.store s.files (s.processed ++ [deriveId f.name]) := by
  unfold fileStep
  rw [if_pos he]
  dsimp only
  rw [hdb]
  dsimp only
  rw [if_pos hlt, hv]

theorem p1Step_upsert {α : Type} (now srv : Nat) (s : SState α) (f : DFile α) (v : α)
    (he : isEntityFile f.name = true)
    (hdb : findOne s.store (deriveId f.name) = none)
    (hv : f.content = Content.ok v) :
    fileStep now srv s f =
      SState.mk (upsert s.store (Rec.mk (deriveId f.name) now srv v)) s.files
        (s.processed ++ [deriveId f.name]) := by
  unfold fileStep
  rw [if_pos he]
  dsimp only
  rw [hdb]
  dsimp only
  rw [hv]
  rfl

theorem p1Step_newer {α : Type} (now srv : Nat) (s : SState α) (f : DFile α) (r : Rec α)
    (v : α) (he : isEntityFile f.name = true)
    (hdb : findOne s.store (deriveId f.name) = some r)
    (hlt : r.lastsave < f.mtime)
    (hv : f.content = Content.ok v) :
    fileStep now srv s f =
      SState.mk (upsert s.store (Rec.mk (deriveId f.name) now srv v)) s.files
        (s.processed ++ [deriveId f.name]) := by
  unfold fileStep
  rw [if_pos he]
  dsimp only
  rw [hdb]
  dsimp only
  rw [if_pos hlt, hv]
  rfl

theorem p1Step_storeWins {α : Type} (now srv : Nat) (s : SState α) (f : DFile α) (r : Rec α)
    (he : isEntityFile f.name = true)
    (hdb : findOne s.store (deriveId f.name) = some r)
    (hge : ¬ r.lastsave < f.mtime) :
    fileStep now srv s f =
      SState.mk s.store (writeFs s.files f.name (stringify r.playerdata) now)
        (s.processed ++ [deriveId f.name]) := by
  unfold fileStep
  rw [if_pos he]
  dsimp only
  rw [hdb]
  dsimp only
  rw [if_neg hge]

theorem p1Step_frame {α : Type} (now srv : Nat) (s : SState α) (f : DFile α) :
    ((fileStep now srv s f).store = s.store ∨
        ∃ v, (fileStep now srv s f).store = upsert s.store (Rec.mk (deriveId f.name) now srv v)) ∧
    ((fileStep now srv s f).files = s.files ∨
        ∃ c, (fileStep now srv s f).files = writeFs s.files f.name c now) ∧
    (fileStep now srv s f).processed = s.processed ++
      (if isEntityFile f.name = true then [deriveId f.name] else []) := by
  by_cases he : isEntityFile f.name = true
  · rw [if_pos he]
    cases hdb : findOne s.store (deriveId f.name) with
    | none =>
        cases hv : parse f.content with
        | none =>
            rw [p1Step_bad_none now srv s f he hdb hv]
            exact ⟨Or.inl rfl, Or.inl rfl, rfl⟩
        | some v =>
            rw [p1Step_upsert now srv s f v he hdb (content_ok_of_parse hv)]
            exact ⟨Or.inr ⟨v, rfl⟩, Or.inl rfl, rfl⟩
    | some r =>
        by_cases hlt : r.lastsave < f.mtime
        · cases hv : parse f.content with
          | none =>
              rw [p1Step_bad_newer now srv s f r he hdb hlt hv]
              exact ⟨Or.inl rfl, Or.inl rfl, rfl⟩
          | some v =>
              rw [p1Step_newer now srv s f r v he hdb hlt (content_ok_of_parse hv)]
              exact ⟨Or.inr ⟨v, rfl⟩, Or.inl rfl, rfl⟩
        · rw [p1Step_storeWins now srv s f r he hdb hlt]
          exact ⟨Or.inl rfl, Or.inr ⟨stringify r.playerdata, rfl⟩, rfl⟩
  · rw [if_neg he, List.append_nil, p1Step_skip now srv s f he]
    exact ⟨Or.inl rfl, Or.inl rfl, rfl⟩

theorem p1_foldl_frame {α : Type} (now srv : Nat) (id n : String) :
    ∀ (l : List (DFile α)) (s : SState α),
      (∀ g ∈ l, isEntityFile g.name = true → deriveId g.name ≠ id) →
      (∀ g ∈ l, isEntityFile g.name = true → g.name ≠ n) →
      findOne (List.foldl (fileStep now srv) s l).store id = findOne s.store id ∧
      readFs (List.foldl (fileStep now srv) s l).files n = readFs s.files n ∧
      ∀ x ∈ s.processed, x ∈ (List.foldl (fileStep now srv) s l).processed := by
  intro l
  induction l with
  | nil => intro s _ _; exact ⟨rfl, rfl, fun x hx => hx⟩
  | cons f t ih =>
      intro s hid hn
      rw [List.foldl_cons]
      by_cases he : isEntityFile f.name = true
      · have iht := ih (fileStep now srv s f)
          (fun g hg => hid g (List.mem_cons_of_mem f hg))
          (fun g hg => hn g (List.mem_cons_of_mem f hg))
        have hfr := p1Step_frame now srv s f
        refine ⟨?_, ?_, ?_⟩
        · rw [iht.1]
          rcases hfr.1 with h1 | ⟨v, h1⟩
          · rw [h1]
          · rw [h1]
            exact findOne_upsert_ne s.store (Rec.mk (deriveId f.name) now srv v) id
              (Ne.symm (hid f (List.mem_cons_self f t) he))
        · rw [iht.2.1]
          rcases hfr.2.1 with h1 | ⟨c, h1⟩
          · rw [h1]
          · rw [h1]
            exact readFs_writeFs_ne s.files f.name c now n
              (Ne.symm (hn f (List.mem_cons_self f t) he))
        · intro x hx
          apply iht.2.2
          rw [hfr.2.2]
          exact List.mem_append_left _ hx
      · rw [p1Step_skip now srv s f he]
        exact ih s (fun g hg => hid g (List.mem_cons_of_mem f hg))
          (fun g hg => hn g (List.mem_cons_of_mem f hg))

theorem p1_foldl_processed {α : Type} (now srv : Nat) :
    ∀ (l : List (DFile α)) (s : SState α),
      (List.foldl (fileStep now srv) s l).processed = s.processed ++ processedIds l := by
  intro l
  induction l with
  | nil => intro s; simp [processedIds]
  | cons f t ih =>
      intro s
      rw [List.foldl_cons, ih (fileStep now srv s f), (p1Step_frame now srv s f).2.2]
      unfold processedIds
      by_cases he : isEntityFile f.name = true
      · rw [if_pos he]
        simp [List.filter_cons, he, List.append_assoc]
      · rw [if_neg he]
        simp only [List.filter_cons]
        rw [if_neg (by simpa using he)]
        simp [processedIds]

theorem p1_foldl_store_mem {α : Type} (now srv : Nat) :
    ∀ (l : List (DFile α)) (s : SState α) (r : Rec α), r ∈ s.store →
      (s.store.map Rec.player_id).Nodup →
      (∀ g ∈ l, isEntityFile g.name = true → deriveId g.name ≠ r.player_id) →
      r ∈ (List.foldl (fileStep now srv) s l).store ∧
      ((List.foldl (fileStep now srv) s l).store.map Rec.player_id).Nodup := by
  intro l
  induction l with
  | nil => intro s r hr hn _; exact ⟨hr, hn⟩
  | cons f t ih =>
      intro s r hr hn hid
      rw [List.foldl_cons]
      by_cases he : isEntityFile f.name = true
      · have hfr := p1Step_frame now srv s f
        apply ih (fileStep now srv s f) r ?mem ?nodup
          (fun g hg => hid g (List.mem_cons_of_mem f hg))
        case mem =>
          rcases hfr.1 with h1 | ⟨v, h1⟩
          · rw [h1]; exact hr
          · rw [h1]
            exact mem_upsert_of_ne hr (Ne.symm (hid f (List.mem_cons_self f t) he))
        case nodup =>
          rcases hfr.1 with h1 | ⟨v, h1⟩
          · rw [h1]; exact hn
          · rw [h1]
            exact upsert_ids_nodup s.store _ hn
      · rw [p1Step_skip now srv s f he]
        exact ih s r hr hn (fun g hg => hid g (List.mem_cons_of_mem f hg))

theorem p1_sweep_phase1 {α : Type} (now srv : Nat) (store0 : List (Rec α))
    (l1 l2 : List (DFile α)) (g : DFile α)
    (hn : ((l1 ++ g :: l2).map DFile.name).Nodup)
    (hder : ∀ x ∈ l1 ++ g :: l2, deriveId x.name ++ ".json" = x.name) :
    findOne (List.foldl (fileStep now srv) (SState.mk store0 (l1 ++ g :: l2) []) l1).store
        (deriveId g.name) = findOne store0 (deriveId g.name) ∧
    readFs (List.foldl (fileStep now srv) (SState.mk store0 (l1 ++ g :: l2) []) l1).files
        g.name = some g := by
  have hsides := DBKoth.side_conditions l1 l2 g hn hder
  have hfr := p1_foldl_frame now srv (deriveId g.name) g.name l1
    (SState.mk store0 (l1 ++ g :: l2) [])
    (fun x hx _ => (hsides.1 x hx).1)
    (fun x hx _ => (hsides.1 x hx).2)
  refine ⟨hfr.1, ?_⟩
  rw [hfr.2.1]
  exact readFs_of_mem_nodup _ g hn (List.mem_append_right _ (List.mem_cons_self g l2))

theorem p1_sweep_phase2 {α : Type} (now srv : Nat) (store0 : List (Rec α))
    (l1 l2 : List (DFile α)) (g : DFile α) (s2 : SState α)
    (hn : ((l1 ++ g :: l2).map DFile.name).Nodup)
    (hder : ∀ x ∈ l1 ++ g :: l2, deriveId x.name ++ ".json" = x.name)
    (hstep : fileStep now srv
      (List.foldl (fileStep now srv) (SState.mk store0 (l1 ++ g :: l2) []) l1) g = s2)
    (hproc : deriveId g.name ∈ s2.processed) :
    syncKothFiles now srv store0 (l1 ++ g :: l2)
      = catchUp now (List.foldl (fileStep now srv) s2 l2) ∧
    findOne (catchUp now (List.foldl (fileStep now srv) s2 l2)).store (deriveId g.name)
      = findOne s2.store (deriveId g.name) ∧
    readFs (catchUp now (List.foldl (fileStep now srv) s2 l2)).files g.name
      = readFs s2.files g.name := by
  have hgmem : g ∈ l1 ++ g :: l2 := List.mem_append_right _ (List.mem_cons_self g l2)
  have hsides := DBKoth.side_conditions l1 l2 g hn hder
  have hfr2 := p1_foldl_frame now srv (deriveId g.name) g.name l2 s2
    (fun x hx _ => (hsides.2 x hx).1)
    (fun x hx _ => (hsides.2 x hx).2)
  refine ⟨?_, hfr2.1, ?_⟩
  · unfold syncKothFiles
    rw [List.foldl_append, List.foldl_cons, hstep]
  · have hmemfin : deriveId g.name ∈ (List.foldl (fileStep now srv) s2 l2).processed :=
      hfr2.2.2 _ hproc
    have hcf : readFs (catchUp now (List.foldl (fileStep now srv) s2 l2)).files g.name
        = readFs (List.foldl (fileStep now srv) s2 l2).files g.name := by
      show readFs (materialize now _ _ _) g.name = _
      apply materialize_frame
      intro r _ hskip he
      have hre : r.player_id = deriveId g.name :=
        append_json_cancel (he.trans (hder g hgmem).symm)
      unfold skipRec at hskip
      rw [hre, contains_of_mem hmemfin] at hskip
      simp at hskip
    rw [hcf]
    exact hfr2.2.1

end P1

/-- C3 counterexample: the catch-up pass of src/DBKoth.js has no id filter,
so with a ServerSettings row in the store and an empty directory the sweep
materializes ServerSettings.json as an ordinary entity file, refuting the
claim for that variant. -/
theorem dbkoth_catchup_materializes_serversettings :
    readFs (DBKoth.syncKothFiles 100 1 [Rec.mk "ServerSettings" 0 0 (7 : Nat)] []).files
        "ServerSettings.json"
      = some (DFile.mk "ServerSettings.json" 100 (Content.ok 7)) := by decide

/-- C3 (amended): in the variants whose catch-up pass filters rows, part_001
and part_002, a row whose id is serversettings case-insensitively or fails
the seventeen-digit shape is never materialized: the catch-up pass leaves
the directory entry of that name exactly as it was. -/
theorem p1_catchup_skips_invalid_ids {α : Type} (now : Nat) (s : SState α) (r : Rec α)
    (_hr : r ∈ s.store)
    (hbad : toLowerStr r.player_id = "serversettings" ∨ ¬ isSteamId r.player_id = true) :
    readFs (P1.catchUp now s).files (r.player_id ++ ".json")
      = readFs s.files (r.player_id ++ ".json") := by
  show readFs (materialize now _ _ _) _ = _
  apply materialize_frame
  intro x _ hskip he
  have hxe : x.player_id = r.player_id := append_json_cancel he
  unfold P1.skipRec at hskip
  rw [hxe] at hskip
  rcases hbad with hb | hb
  · rw [hb] at hskip
    simp at hskip
  · have hfalse : isSteamId r.player_id = false := by simpa using hb
    rw [hfalse] at hskip
    simp at hskip

/-- Witness for C3 at a store holding only a ServerSettings row and an
empty directory: the part_001 catch-up pass writes nothing. -/
theorem p1_catchup_skips_invalid_ids_witness :
    readFs (P1.catchUp 100 (SState.mk [Rec.mk "ServerSettings" 0 0 (7 : Nat)] [] [])).files
        ("ServerSettings" ++ ".json")
      = readFs (SState.mk [Rec.mk "ServerSettings" 0 0 (7 : Nat)] [] []).files
        ("ServerSettings" ++ ".json") :=
  p1_catchup_skips_invalid_ids 100 (SState.mk [Rec.mk "ServerSettings" 0 0 7] [] [])
    (Rec.mk "ServerSettings" 0 0 7) (by decide) (Or.inl (by decide))

/-- C2 counterexample: in src/DBKoth.js the parse of a malformed file in
the file-to-store branch throws to the sweep-level catch.  With a.json
malformed (no row), b.json well-formed (no row) and a store row without a
file, the whole pass aborts: b.json is never upserted and the catch-up pass
never materializes the row, refuting the claim for that variant. -/
theorem dbkoth_sweep_aborts_on_malformed_file :
    findOne (DBKoth.syncKothFiles 100 1 [Rec.mk "22222222222222222" 0 0 (7 : Nat)]
        [DFile.mk "a.json" 10 (Content.bad "x"), DFile.mk "b.json" 10 (Content.ok 5)]).store
        "b" = none
    ∧ readFs (DBKoth.syncKothFiles 100 1 [Rec.mk "22222222222222222" 0 0 (7 : Nat)]
        [DFile.mk "a.json" 10 (Content.bad "x"), DFile.mk "b.json" 10 (Content.ok 5)]).files
        "22222222222222222.json" = none := by
  constructor
  · decide
  · decide

/-- C2 (amended): in the variants that guard JSON.parse per entity, here
part_001, a sweep over a directory holding a malformed entity file f
isolates the failure.  First, the entity of f is skipped exactly when the
file side would win the freshness decision (no row, or the file strictly
newer): its row and its file are then left unchanged; when the store is
newer the usual store-wins write still happens, since the file is never
parsed there.  Second, every other well-formed entity file is still
reconciled exactly as in a fully well-formed sweep.  Third, the
store-to-file catch-up pass still runs and materializes every eligible
unprocessed row. -/
theorem p1_sweep_isolates_malformed_file {α : Type} (now srv : Nat)
    (store0 : List (Rec α)) (files0 : List (DFile α))
    (hn : (files0.map DFile.name).Nodup)
    (hder : ∀ g ∈ files0, deriveId g.name ++ ".json" = g.name)
    (hsn : (store0.map Rec.player_id).Nodup)
    (f : DFile α) (hf : f ∈ files0)
    (hbad : parse f.content = none)
    (hss : ¬ isSettingsName f.name = true) :
    (match findOne store0 (deriveId f.name) with
     | none =>
         findOne (P1.syncKothFiles now srv store0 files0).store (deriveId f.name) = none
         ∧ readFs (P1.syncKothFiles now srv store0 files0).files f.name = some f
     | some r =>
         if r.lastsave < f.mtime then
           findOne (P1.syncKothFiles now srv store0 files0).store (deriveId f.name) = some r
           ∧ readFs (P1.syncKothFiles now srv store0 files0).files f.name = some f
         else
           findOne (P1.syncKothFiles now srv store0 files0).store (deriveId f.name) = some r
           ∧ readFs (P1.syncKothFiles now srv store0 files0).files f.name
               = some (DFile.mk f.name now (stringify r.playerdata)))
    ∧ (∀ (g : DFile α) (w : α), g ∈ files0 → g ≠ f → ¬ isSettingsName g.name = true →
        g.content = Content.ok w →
        match findOne store0 (deriveId g.name) with
        | none =>
            findOne (P1.syncKothFiles now srv store0 files0).store (deriveId g.name)
              = some (Rec.mk (deriveId g.name) now srv w)
            ∧ readFs (P1.syncKothFiles now srv store0 files0).files g.name = some g
        | some r =>
            if r.lastsave < g.mtime then
              findOne (P1.syncKothFiles now srv store0 files0).store (deriveId g.name)
                = some (Rec.mk (deriveId g.name) now srv w)
              ∧ readFs (P1.syncKothFiles now srv store0 files0).files g.name = some g
            else
              findOne (P1.syncKothFiles now srv store0 files0).store (deriveId g.name)
                = some r
              ∧ readFs (P1.syncKothFiles now srv store0 files0).files g.name
                  = some (DFile.mk g.name now (stringify r.playerdata)))
    ∧ (∀ r ∈ store0, isSteamId r.player_id = true →
        ¬ toLowerStr r.player_id = "serversettings" →
        r.player_id ∉ P1.processedIds files0 →
        readFs (P1.syncKothFiles now srv store0 files0).files (r.player_id ++ ".json")
          = some (DFile.mk (r.player_id ++ ".json") now (stringify r.playerdata))) := by
  refine ⟨?_, ?_, ?_⟩
  · -- the malformed file's own entity
    obtain ⟨l1, l2, rfl⟩ := List.append_of_mem hf
    have hfmem : f ∈ l1 ++ f :: l2 := List.mem_append_right _ (List.mem_cons_self f l2)
    have hef : isEntityFile f.name = true := by
      unfold isEntityFile
      rw [endsJson_of_convention (hder f hfmem)]
      have hsf : isSettingsName f.name = false := by simpa using hss
      rw [hsf]
      rfl
    have hP1 := P1.p1_sweep_phase1 now srv store0 l1 l2 f hn hder
    cases hdb0 : findOne store0 (deriveId f.name) with
    | none =>
        have hdb1 := hP1.1.trans hdb0
        have hstep := P1.p1Step_bad_none now srv _ f hef hdb1 hbad
        have hP2 := P1.p1_sweep_phase2 now srv store0 l1 l2 f _ hn hder hstep
          (List.mem_append_right _ (List.mem_cons_self _ _))
        constructor
        · rw [hP2.1, hP2.2.1]
          exact hdb1
        · rw [hP2.1, hP2.2.2]
          exact hP1.2
    | some r =>
        dsimp only
        have hdb1 := hP1.1.trans hdb0
        by_cases hlt : r.lastsave < f.mtime
        · rw [if_pos hlt]
          have hstep := P1.p1Step_bad_newer now srv _ f r hef hdb1 hlt hbad
          have hP2 := P1.p1_sweep_phase2 now srv store0 l1 l2 f _ hn hder hstep
            (List.mem_append_right _ (List.mem_cons_self _ _))
          constructor
          · rw [hP2.1, hP2.2.1]
            exact hdb1
          · rw [hP2.1, hP2.2.2]
            exact hP1.2
        · rw [if_neg hlt]
          have hstep := P1.p1Step_storeWins now srv _ f r hef hdb1 hlt
          have hP2 := P1.p1_sweep_phase2 now srv store0 l1 l2 f _ hn hder hstep
            (List.mem_append_right _ (List.mem_cons_self _ _))
          constructor
          · rw [hP2.1, hP2.2.1]
            exact hdb1
          · rw [hP2.1, hP2.2.2]
            exact readFs_writeFs_self _ f.name (stringify r.playerdata) now
  · -- every other well-formed entity file
    intro g w hg hgne hgss hgok
    obtain ⟨m1, m2, rfl⟩ := List.append_of_mem hg
    have hgmem : g ∈ m1 ++ g :: m2 := List.mem_append_right _ (List.mem_cons_self g m2)
    have heg : isEntityFile g.name = true := by
      unfold isEntityFile
      rw [endsJson_of_convention (hder g hgmem)]
      have hsg : isSettingsName g.name = false := by simpa using hgss
      rw [hsg]
      rfl
    have hP1 := P1.p1_sweep_phase1 now srv store0 m1 m2 g hn hder
    cases hdb0 : findOne store0 (deriveId g.name) with
    | none =>
        have hdb1 := hP1.1.trans hdb0
        have hstep := P1.p1Step_upsert now srv _ g w heg hdb1 hgok
        have hP2 := P1.p1_sweep_phase2 now srv store0 m1 m2 g _ hn hder hstep
          (List.mem_append_right _ (List.mem_cons_self _ _))
        constructor
        · rw [hP2.1, hP2.2.1]
          exact findOne_upsert_self _ (Rec.mk (deriveId g.name) now srv w)
        · rw [hP2.1, hP2.2.2]
          exact hP1.2
    | some r =>
        dsimp only
        have hdb1 := hP1.1.trans hdb0
        by_cases hlt : r.lastsave < g.mtime
        · rw [if_pos hlt]
          have hstep := P1.p1Step_newer now srv _ g r w heg hdb1 hlt hgok
          have hP2 := P1.p1_sweep_phase2 now srv store0 m1 m2 g _ hn hder hstep
            (List.mem_append_right _ (List.mem_cons_self _ _))
          constructor
          · rw [hP2.1, hP2.2.1]
            exact findOne_upsert_self _ (Rec.mk (deriveId g.name) now srv w)
          · rw [hP2.1, hP2.2.2]
            exact hP1.2
        · rw [if_neg hlt]
          have hstep := P1.p1Step_storeWins now srv _ g r heg hdb1 hlt
          have hP2 := P1.p1_sweep_phase2 now srv store0 m1 m2 g _ hn hder hstep
            (List.mem_append_right _ (List.mem_cons_self _ _))
          constructor
          · rw [hP2.1, hP2.2.1]
            exact hdb1
          · rw [hP2.1, hP2.2.2]
            exact readFs_writeFs_self _ g.name (stringify r.playerdata) now
  · -- the catch-up pass still runs
    intro r hr hsteam hlow hnp
    unfold P1.syncKothFiles P1.catchUp
    dsimp only
    have hproc : (List.foldl (P1.fileStep now srv) (SState.mk store0 files0 []) files0).processed
        = P1.processedIds files0 := by
      rw [P1.p1_foldl_processed]
      exact List.nil_append _
    have hid : ∀ g ∈ files0, isEntityFile g.name = true → deriveId g.name ≠ r.player_id := by
      intro g hg he heq
      apply hnp
      rw [← heq]
      unfold P1.processedIds
      exact List.mem_map_of_mem _ (List.mem_filter.mpr ⟨hg, he⟩)
    have hmem := P1.p1_foldl_store_mem now srv files0 (SState.mk store0 files0 []) r hr hsn hid
    have hskipf : P1.skipRec
        (List.foldl (P1.fileStep now srv) (SState.mk store0 files0 []) files0).processed r
        = false := by
      unfold P1.skipRec
      rw [hproc]
      have h2 : (toLowerStr r.player_id == "serversettings") = false := by
        simp [hlow]
      have h3 : (P1.processedIds files0).contains r.player_id = false := by
        rw [Bool.eq_false_iff]
        intro hc
        exact hnp (List.elem_iff.mp hc)
      rw [hsteam, h2, h3]
      rfl
    exact materialize_write now _ _ hmem.2 r hmem.1 hskipf _

/-- Witness for C2: directory with malformed a.json and well-formed b.json,
store with one valid-id row and no file; the clause about the malformed
entity itself, instantiated. -/
theorem p1_sweep_isolates_malformed_file_witness :
    findOne (P1.syncKothFiles 100 1 [Rec.mk "33333333333333333" 0 0 (9 : Nat)]
        [DFile.mk "a.json" 10 (Content.bad "x"), DFile.mk "b.json" 10 (Content.ok 5)]).store
        (deriveId "a.json") = none
    ∧ readFs (P1.syncKothFiles 100 1 [Rec.mk "33333333333333333" 0 0 (9 : Nat)]
        [DFile.mk "a.json" 10 (Content.bad "x"), DFile.mk "b.json" 10 (Content.ok 5)]).files
        "a.json" = some (DFile.mk "a.json" 10 (Content.bad "x")) :=
  (p1_sweep_isolates_malformed_file 100 1 [Rec.mk "33333333333333333" 0 0 (9 : Nat)]
    [DFile.mk "a.json" 10 (Content.bad "x"), DFile.mk "b.json" 10 (Content.ok 5)]
    (by decide) (by decide) (by decide)
    (DFile.mk "a.json" 10 (Content.bad "x")) (by decide) rfl (by decide)).1
